import Mathlib

/-!
Verification development for the KaiaFun MCP server and its trading SDK.

The TypeScript sources are shallowly embedded:

* `src/sdk/utils.ts` — `getEventFromReceipt`, decoding receipt logs;
* `src/sdk/client.ts` — the `KaiaFunClient` operations `buy`, `sell`,
  `list`, `uploadImage`, modelled as pure functions over an explicit
  environment (chain id, balance, remote-call outcomes) that also return
  the ordered trace of external effects they perform;
* `src/kaiafun-mcp-server.ts` — the pure tool handlers (`get_token_url`)
  and the amount conversions, which delegate to viem's
  `parseEther` / `formatEther`; those two library functions are embedded
  here as well, faithfully to viem's `parseUnits` / `formatUnits` at 18
  decimals, since the round-trip property is about their behaviour.

JS strings are modelled as `List Char` over code points; `String` wrappers
are provided where the source-level API takes strings.
-/

/-- Decimal digit test on the code point, as the character class 0-9 in the
    source's regular expressions. -/
def isDigitC (c : Char) : Bool := 48 ≤ c.toNat && c.toNat ≤ 57

/-- Hexadecimal digit test on the code point, as the character class
    a-fA-F0-9 in the zod address schema of kaiafun-mcp-server.ts. -/
def isHexDigitC (c : Char) : Bool :=
  isDigitC c || (97 ≤ c.toNat && c.toNat ≤ 102) || (65 ≤ c.toNat && c.toNat ≤ 70)

/-- ASCII uppercase-letter test on the code point. -/
def isUpperC (c : Char) : Bool := 65 ≤ c.toNat && c.toNat ≤ 90

/-- ASCII case folding of one character, as JavaScript's
    String.prototype.toLowerCase acts on the ASCII range (the only range the
    validated inputs contain). -/
def toLowerChar (c : Char) : Char :=
  if isUpperC c then Char.ofNat (c.toNat + 32) else c

/-- Lowercasing of a whole string, as value.toLowerCase() in the source. -/
def lowerString (s : String) : String := ⟨s.data.map toLowerChar⟩

theorem toNat_ofNat_of_valid (n : Nat) (h : Nat.isValidChar n) :
    (Char.ofNat n).toNat = n := by
  simp [Char.ofNat, h, Char.ofNatAux, Char.toNat, UInt32.toNat]

theorem toNat_toLowerChar (c : Char) :
    (toLowerChar c).toNat = if isUpperC c then c.toNat + 32 else c.toNat := by
  unfold toLowerChar
  split
  · next hu =>
    simp only [isUpperC, Bool.and_eq_true, decide_eq_true_eq] at hu
    exact toNat_ofNat_of_valid _ (Or.inl (by omega))
  · rfl

theorem isUpperC_toLowerChar (c : Char) : isUpperC (toLowerChar c) = false := by
  unfold toLowerChar
  split
  · next hu =>
    have hb : 65 ≤ c.toNat ∧ c.toNat ≤ 90 := by
      simpa [isUpperC, Bool.and_eq_true, decide_eq_true_eq] using hu
    have ht : (Char.ofNat (c.toNat + 32)).toNat = c.toNat + 32 :=
      toNat_ofNat_of_valid _ (Or.inl (by omega))
    simp only [isUpperC, ht, Bool.and_eq_false_iff, decide_eq_false_iff_not]
    right
    omega
  · next hu =>
    cases hb : isUpperC c with
    | false => rfl
    | true => exact absurd hb hu

/-- Value of a digit list read in base 10, as BigInt applied to a string of
    decimal digits in parseUnits. -/
def digitsToNat (l : List Char) : Nat :=
  l.foldl (fun a c => 10 * a + (c.toNat - 48)) 0

/-- Fuel-driven digit emitter behind `natToDigits`; the fuel only has to
    exceed the value, as established by `natToDigitsAux_fuel`. -/
def natToDigitsAux : Nat → Nat → List Char → List Char
  | 0, _, acc => acc
  | fuel + 1, n, acc =>
    if n < 10 then Char.ofNat (48 + n) :: acc
    else natToDigitsAux fuel (n / 10) (Char.ofNat (48 + n % 10) :: acc)

/-- Decimal rendering of a natural number, as BigInt.prototype.toString
    produces it: no sign, no leading zeros, and the single digit 0 for zero. -/
def natToDigits (n : Nat) : List Char :=
  natToDigitsAux (n + 1) n []

/-- Removal of trailing zero characters, as the replacement of the suffix
    0+ by the empty string in parseUnits and formatUnits. -/
def trimTrailingZeros (l : List Char) : List Char :=
  ((l.reverse).dropWhile (fun c => c == '0')).reverse

/-- Shape test for an unsigned decimal body: digits, then optionally one dot
    and digits.  Together with the sign handling in `parseUnits18` this is
    the regular expression (-?)([0-9]*)\.?([0-9]*) anchored at both ends,
    which viem's parseUnits requires before converting. -/
def validBody : List Char → Bool
  | [] => true
  | c :: rest =>
    if isDigitC c then validBody rest
    else if c = '.' then rest.all isDigitC
    else false

/-- Split at the first dot, as the destructuring of value.split with
    separator dot in parseUnits: the fraction defaults to the single digit 0
    when no dot occurs.  Only applied to bodies accepted by `validBody`,
    which admit at most one dot. -/
def splitDot (l : List Char) : List Char × List Char :=
  match l.dropWhile (fun c => c != '.') with
  | [] => (l.takeWhile (fun c => c != '.'), ['0'])
  | _ :: tail => (l.takeWhile (fun c => c != '.'), tail)

/-- Sign stripping, as the startsWith check for a minus sign in parseUnits. -/
def stripNeg : List Char → Bool × List Char
  | '-' :: tail => (true, tail)
  | l => (false, l)

/-- Embedding of viem's parseUnits at 18 decimals (parseEther), the function
    behind the convert-to-smallest-unit tool: validate against the decimal
    regular expression, strip the sign, split integer and fraction at the
    dot, trim trailing fraction zeros, right-pad the fraction to 18 digits
    and read the concatenation as an integer.  The branch for fractions
    longer than 18 digits rounds through IEEE floats in the source and lies
    outside the modelled (18-decimals-representable) domain, so it is mapped
    to `none` here. -/
def parseUnits18 (l : List Char) : Option Int :=
  let (neg, body) := stripNeg l
  if !validBody body then none
  else
    let (intPart, fracRaw) := splitDot body
    let frac := trimTrailingZeros fracRaw
    if frac.length > 18 then none
    else
      let digits := intPart ++ frac ++ List.replicate (18 - frac.length) '0'
      some ((if neg then (-1 : Int) else 1) * (digitsToNat digits : Int))

/-- Left-padded decimal rendering used by formatUnits: the value's digits
    padded with zeros on the left to at least the 18 fraction places
    (display = value.toString padded to the decimals count). -/
def displayOf (m : Nat) : List Char :=
  List.replicate (18 - (natToDigits m).length) '0' ++ natToDigits m

/-- Integer part cut from the padded display (the slice before the last 18
    characters) in formatUnits. -/
def integerOf (m : Nat) : List Char :=
  (displayOf m).take ((displayOf m).length - 18)

/-- Fraction part cut from the padded display (the last 18 characters) in
    formatUnits. -/
def fractionOf (m : Nat) : List Char :=
  (displayOf m).drop ((displayOf m).length - 18)

/-- Unsigned body assembled by formatUnits: a 0 default for the empty
    integer part, and the dot only when the zero-trimmed fraction is
    nonempty. -/
def formatBody (m : Nat) : List Char :=
  (if (integerOf m).isEmpty then ['0'] else integerOf m) ++
    (if (trimTrailingZeros (fractionOf m)).isEmpty then []
     else '.' :: trimTrailingZeros (fractionOf m))

/-- Embedding of viem's formatUnits at 18 decimals (formatEther), the
    function behind the convert-from-smallest-unit tool: render the absolute
    value in decimal, left-pad to 18 digits, cut integer and fraction parts,
    trim trailing fraction zeros, and reassemble with sign, a 0 default for
    the empty integer part, and the dot only for a nonempty fraction. -/
def formatUnits18 (v : Int) : List Char :=
  (if decide (v < 0) then ['-'] else []) ++ formatBody v.natAbs

/-- String-level wrapper matching the viem parseEther signature used by the
    parse_ether tool handler. -/
def parseEther (s : String) : Option Int := parseUnits18 s.data

/-- String-level wrapper matching the viem formatEther signature used by the
    format_ether tool handler. -/
def formatEther (v : Int) : String := ⟨formatUnits18 v⟩

theorem natToDigitsAux_fuel (f1 f2 n : Nat) (acc : List Char) (h1 : n < f1) (h2 : n < f2) :
    natToDigitsAux f1 n acc = natToDigitsAux f2 n acc := by
  induction n using Nat.strongRecOn generalizing f1 f2 acc with
  | _ n ih =>
    cases f1 with
    | zero => omega
    | succ g1 =>
      cases f2 with
      | zero => omega
      | succ g2 =>
        simp only [natToDigitsAux]
        split
        · rfl
        · exact ih (n / 10) (Nat.div_lt_self (by omega) (by omega)) _ _ _
            (by have := Nat.div_lt_self (show 0 < n by omega) (show 1 < 10 by omega); omega)
            (by have := Nat.div_lt_self (show 0 < n by omega) (show 1 < 10 by omega); omega)

theorem natToDigitsAux_acc (f n : Nat) (acc : List Char) :
    natToDigitsAux f n acc = natToDigitsAux f n [] ++ acc := by
  induction f generalizing n acc with
  | zero => simp [natToDigitsAux]
  | succ g ih =>
    simp only [natToDigitsAux]
    split
    · rfl
    · rw [ih, ih (n / 10) [Char.ofNat (48 + n % 10)]]
      simp

theorem natToDigits_of_lt (n : Nat) (h : n < 10) :
    natToDigits n = [Char.ofNat (48 + n)] := by
  simp [natToDigits, natToDigitsAux, h]

theorem natToDigits_of_ge (n : Nat) (h : ¬ n < 10) :
    natToDigits n = natToDigits (n / 10) ++ [Char.ofNat (48 + n % 10)] := by
  unfold natToDigits
  conv_lhs => simp only [natToDigitsAux]
  rw [if_neg h, natToDigitsAux_acc]
  congr 1
  exact natToDigitsAux_fuel n (n / 10 + 1) (n / 10) []
    (by have := Nat.div_lt_self (show 0 < n by omega) (show 1 < 10 by omega); omega)
    (Nat.lt_succ_self _)

theorem natToDigits_ne_nil (n : Nat) : natToDigits n ≠ [] := by
  by_cases h : n < 10
  · rw [natToDigits_of_lt n h]; simp
  · rw [natToDigits_of_ge n h]; simp

theorem digitsToNat_snoc (xs : List Char) (c : Char) :
    digitsToNat (xs ++ [c]) = 10 * digitsToNat xs + (c.toNat - 48) := by
  simp [digitsToNat, List.foldl_append]

theorem digitsToNat_cons_zero (l : List Char) : digitsToNat ('0' :: l) = digitsToNat l := rfl

theorem digitsToNat_replicate_zero_append (k : Nat) (xs : List Char) :
    digitsToNat (List.replicate k '0' ++ xs) = digitsToNat xs := by
  induction k with
  | zero => rfl
  | succ m ih =>
    rw [List.replicate_succ, List.cons_append, digitsToNat_cons_zero, ih]

theorem digitsToNat_natToDigits (n : Nat) : digitsToNat (natToDigits n) = n := by
  induction n using Nat.strongRecOn with
  | _ n ih =>
    by_cases h : n < 10
    · rw [natToDigits_of_lt n h]
      have ht := toNat_ofNat_of_valid (48 + n) (Or.inl (by omega))
      simp [digitsToNat, ht]
    · rw [natToDigits_of_ge n h, digitsToNat_snoc,
        ih (n / 10) (Nat.div_lt_self (by omega) (by omega))]
      have ht := toNat_ofNat_of_valid (48 + n % 10) (Or.inl (by omega))
      rw [ht]
      omega

theorem natToDigitsAux_digits (f n : Nat) (acc : List Char)
    (hacc : ∀ c ∈ acc, isDigitC c = true) :
    ∀ c ∈ natToDigitsAux f n acc, isDigitC c = true := by
  induction f generalizing n acc with
  | zero => simpa [natToDigitsAux] using hacc
  | succ g ih =>
    simp only [natToDigitsAux]
    split
    · next hlt =>
      intro c hc
      rcases List.mem_cons.mp hc with rfl | hmem
      · have ht := toNat_ofNat_of_valid (48 + n) (Or.inl (by omega))
        simp only [isDigitC, ht, Bool.and_eq_true, decide_eq_true_eq]
        omega
      · exact hacc c hmem
    · apply ih
      intro c hc
      rcases List.mem_cons.mp hc with rfl | hmem
      · have hm : n % 10 < 10 := Nat.mod_lt n (by omega)
        have ht := toNat_ofNat_of_valid (48 + n % 10) (Or.inl (by omega))
        simp only [isDigitC, ht, Bool.and_eq_true, decide_eq_true_eq]
        omega
      · exact hacc c hmem

theorem natToDigits_digits (n : Nat) : ∀ c ∈ natToDigits n, isDigitC c = true :=
  natToDigitsAux_digits (n + 1) n [] (fun c hc => absurd hc (List.not_mem_nil c))

theorem trimTrailingZeros_spec (l : List Char) :
    ∃ k, l = trimTrailingZeros l ++ List.replicate k '0' := by
  refine ⟨(l.reverse.takeWhile (fun c => c == '0')).length, ?_⟩
  have htake : l.reverse.takeWhile (fun c => c == '0')
      = List.replicate (l.reverse.takeWhile (fun c => c == '0')).length '0' := by
    refine List.eq_replicate_iff.mpr ⟨rfl, ?_⟩
    intro b hb
    have hp := List.mem_takeWhile_imp hb
    simpa [beq_iff_eq] using hp
  conv_lhs => rw [← l.reverse_reverse,
    ← List.takeWhile_append_dropWhile (fun c => c == '0') l.reverse]
  rw [List.reverse_append, htake, List.reverse_replicate]
  simp [trimTrailingZeros]

theorem trimTrailingZeros_idem (l : List Char) :
    trimTrailingZeros (trimTrailingZeros l) = trimTrailingZeros l := by
  unfold trimTrailingZeros
  rw [List.reverse_reverse, List.dropWhile_idempotent]

theorem length_trimTrailingZeros_le (l : List Char) :
    (trimTrailingZeros l).length ≤ l.length := by
  obtain ⟨k, hk⟩ := trimTrailingZeros_spec l
  conv_rhs => rw [hk]
  simp

theorem mem_trimTrailingZeros (l : List Char) :
    ∀ c ∈ trimTrailingZeros l, c ∈ l := by
  intro c hc
  obtain ⟨k, hk⟩ := trimTrailingZeros_spec l
  rw [hk]
  exact List.mem_append_left _ hc

theorem validBody_all_digits (l : List Char) (h : ∀ c ∈ l, isDigitC c = true) :
    validBody l = true := by
  induction l with
  | nil => rfl
  | cons c rest ih =>
    have hc := h c (List.mem_cons_self c rest)
    simp only [validBody, hc, if_true]
    exact ih (fun x hx => h x (List.mem_cons_of_mem c hx))

theorem validBody_append_dot (xs ys : List Char)
    (hx : ∀ c ∈ xs, isDigitC c = true) (hy : ∀ c ∈ ys, isDigitC c = true) :
    validBody (xs ++ '.' :: ys) = true := by
  induction xs with
  | nil =>
    have hdot : isDigitC '.' = false := by decide
    simp only [List.nil_append, validBody, hdot, Bool.false_eq_true, if_false, if_pos rfl]
    exact List.all_eq_true.mpr hy
  | cons c rest ih =>
    have hc := hx c (List.mem_cons_self c rest)
    simp only [List.cons_append, validBody, hc, if_true]
    exact ih (fun x hmem => hx x (List.mem_cons_of_mem c hmem))

theorem splitDot_no_dot (l : List Char) (h : ∀ c ∈ l, c ≠ '.') :
    splitDot l = (l, ['0']) := by
  have hd : l.dropWhile (fun c => c != '.') = [] := by
    apply List.dropWhile_eq_nil_iff.mpr
    intro x hx
    simpa [bne_iff_ne] using h x hx
  have ht : l.takeWhile (fun c => c != '.') = l := by
    apply List.takeWhile_eq_self_iff.mpr
    intro x hx
    simpa [bne_iff_ne] using h x hx
  simp [splitDot, hd, ht]

theorem splitDot_append (xs ys : List Char) (h : ∀ c ∈ xs, c ≠ '.') :
    splitDot (xs ++ '.' :: ys) = (xs, ys) := by
  have hd : (xs ++ '.' :: ys).dropWhile (fun c => c != '.') = '.' :: ys := by
    induction xs with
    | nil => simp [List.dropWhile]
    | cons c rest ih =>
      have hc : (c != '.') = true := by
        simpa [bne_iff_ne] using h c (List.mem_cons_self c rest)
      simp only [List.cons_append, List.dropWhile_cons, hc, if_true]
      exact ih (fun x hx => h x (List.mem_cons_of_mem c hx))
  have ht : (xs ++ '.' :: ys).takeWhile (fun c => c != '.') = xs := by
    clear hd
    induction xs with
    | nil => simp [List.takeWhile]
    | cons c rest ih =>
      have hc : (c != '.') = true := by
        simpa [bne_iff_ne] using h c (List.mem_cons_self c rest)
      simp only [List.cons_append, List.takeWhile_cons, hc, if_true]
      rw [ih (fun x hx => h x (List.mem_cons_of_mem c hx))]
  simp [splitDot, hd, ht]

theorem digit_ne_dot (c : Char) (h : isDigitC c = true) : c ≠ '.' := by
  intro he
  rw [he] at h
  exact absurd h (by decide)

theorem digit_ne_dash (c : Char) (h : isDigitC c = true) : c ≠ '-' := by
  intro he
  rw [he] at h
  exact absurd h (by decide)

theorem stripNeg_cons_of_ne (c : Char) (rest : List Char) (hne : c ≠ '-') :
    stripNeg (c :: rest) = (false, c :: rest) := by
  unfold stripNeg
  split
  · next tail heq =>
    rw [List.cons.injEq] at heq
    exact absurd heq.1 hne
  · rfl

theorem length_displayOf_ge (m : Nat) : 18 ≤ (displayOf m).length := by
  unfold displayOf
  rw [List.length_append, List.length_replicate]
  omega

theorem digits_displayOf (m : Nat) : ∀ c ∈ displayOf m, isDigitC c = true := by
  intro c hc
  rcases List.mem_append.mp hc with hm | hm
  · rw [List.eq_of_mem_replicate hm]
    decide
  · exact natToDigits_digits m c hm

theorem digitsToNat_displayOf (m : Nat) : digitsToNat (displayOf m) = m := by
  unfold displayOf
  rw [digitsToNat_replicate_zero_append, digitsToNat_natToDigits]

theorem length_fractionOf (m : Nat) : (fractionOf m).length = 18 := by
  unfold fractionOf
  rw [List.length_drop]
  have := length_displayOf_ge m
  omega

theorem integer_append_fraction (m : Nat) : integerOf m ++ fractionOf m = displayOf m :=
  List.take_append_drop _ _

theorem digits_integerOf (m : Nat) : ∀ c ∈ integerOf m, isDigitC c = true :=
  fun c hc => digits_displayOf m c ((List.take_sublist _ _).subset hc)

theorem digits_fractionOf (m : Nat) : ∀ c ∈ fractionOf m, isDigitC c = true :=
  fun c hc => digits_displayOf m c ((List.drop_sublist _ _).subset hc)

theorem trim_fraction_pad (m : Nat) :
    trimTrailingZeros (fractionOf m) ++
      List.replicate (18 - (trimTrailingZeros (fractionOf m)).length) '0' = fractionOf m := by
  obtain ⟨k, hk⟩ := trimTrailingZeros_spec (fractionOf m)
  have hlen := congrArg List.length hk
  rw [length_fractionOf, List.length_append, List.length_replicate] at hlen
  have hk2 : 18 - (trimTrailingZeros (fractionOf m)).length = k := by omega
  rw [hk2]
  exact hk.symm

theorem parseUnits18_formatBody (m : Nat) :
    parseUnits18 (formatBody m) = some (m : Int) := by
  have hIdig := digits_integerOf m
  have hFdig : ∀ c ∈ trimTrailingZeros (fractionOf m), isDigitC c = true :=
    fun c hc => digits_fractionOf m c (mem_trimTrailingZeros _ c hc)
  have hFtrim : trimTrailingZeros (trimTrailingZeros (fractionOf m))
      = trimTrailingZeros (fractionOf m) := trimTrailingZeros_idem _
  have hFlen : (trimTrailingZeros (fractionOf m)).length ≤ 18 := by
    have h1 := length_trimTrailingZeros_le (fractionOf m)
    rw [length_fractionOf] at h1
    exact h1
  have hpad := trim_fraction_pad m
  by_cases hIe : (integerOf m).isEmpty
  all_goals by_cases hFe : (trimTrailingZeros (fractionOf m)).isEmpty
  -- integer part empty, trimmed fraction empty: the body is the single digit 0
  · have hI : integerOf m = [] := List.isEmpty_iff.mp hIe
    have hF : trimTrailingZeros (fractionOf m) = [] := List.isEmpty_iff.mp hFe
    have hbody : formatBody m = ['0'] := by
      simp [formatBody, hIe, hFe]
    have hfrac : fractionOf m = List.replicate (18 - 0) '0' := by
      rw [← hpad, hF]
      rfl
    have hm : m = 0 := by
      have h1 : digitsToNat (displayOf m) = 0 := by
        rw [← integer_append_fraction m, hI, List.nil_append, hfrac]
        have h2 := digitsToNat_replicate_zero_append (18 - 0) ([] : List Char)
        rw [List.append_nil] at h2
        rw [h2]
        rfl
      rw [digitsToNat_displayOf] at h1
      exact h1
    rw [hbody, hm]
    decide
  -- integer part empty, trimmed fraction nonempty: the body is 0.fraction
  · have hI : integerOf m = [] := List.isEmpty_iff.mp hIe
    have hbody : formatBody m = '0' :: '.' :: trimTrailingZeros (fractionOf m) := by
      simp [formatBody, hIe, hFe]
    rw [hbody]
    have hstrip := stripNeg_cons_of_ne '0' ('.' :: trimTrailingZeros (fractionOf m)) (by decide)
    have hvalid : validBody ('0' :: '.' :: trimTrailingZeros (fractionOf m)) = true := by
      have := validBody_append_dot ['0'] (trimTrailingZeros (fractionOf m))
        (by intro c hc; rcases List.mem_singleton.mp hc with rfl; decide) hFdig
      simpa using this
    have hsplit : splitDot ('0' :: '.' :: trimTrailingZeros (fractionOf m))
        = (['0'], trimTrailingZeros (fractionOf m)) := by
      have := splitDot_append ['0'] (trimTrailingZeros (fractionOf m))
        (by intro c hc; rcases List.mem_singleton.mp hc with rfl; decide)
      simpa using this
    simp only [parseUnits18, hstrip, hvalid, Bool.not_true, Bool.false_eq_true, if_false,
      hsplit, hFtrim]
    rw [if_neg (by omega)]
    have hdigits : ['0'] ++ trimTrailingZeros (fractionOf m) ++
        List.replicate (18 - (trimTrailingZeros (fractionOf m)).length) '0'
        = '0' :: fractionOf m := by
      rw [List.append_assoc, hpad]
      rfl
    rw [hdigits, digitsToNat_cons_zero]
    have hd : digitsToNat (fractionOf m) = m := by
      have := digitsToNat_displayOf m
      rw [← integer_append_fraction m, hI, List.nil_append] at this
      exact this
    rw [hd, one_mul]
  -- integer part nonempty, trimmed fraction empty: the body is the integer part
  · have hF : trimTrailingZeros (fractionOf m) = [] := List.isEmpty_iff.mp hFe
    have hInn : integerOf m ≠ [] := fun h => hIe (by rw [h]; rfl)
    obtain ⟨c, rest, hcr⟩ := List.exists_cons_of_ne_nil hInn
    have hbody : formatBody m = integerOf m := by
      simp [formatBody, hIe, hFe]
    rw [hbody, hcr]
    have hcd : isDigitC c = true := by
      apply hIdig
      rw [hcr]
      exact List.mem_cons_self c rest
    have hstrip := stripNeg_cons_of_ne c rest (digit_ne_dash c hcd)
    have hvalid : validBody (c :: rest) = true := by
      apply validBody_all_digits
      intro x hx
      apply hIdig
      rw [hcr]
      exact hx
    have hsplit : splitDot (c :: rest) = (c :: rest, ['0']) := by
      apply splitDot_no_dot
      intro x hx
      apply digit_ne_dot
      apply hIdig
      rw [hcr]
      exact hx
    simp only [parseUnits18, hstrip, hvalid, Bool.not_true, Bool.false_eq_true, if_false,
      hsplit]
    have htr0 : trimTrailingZeros ['0'] = [] := by decide
    rw [htr0]
    rw [if_neg (by simp)]
    rw [hF, List.nil_append] at hpad
    simp only [List.nil_append, List.length_nil, Nat.sub_zero] at hpad ⊢
    rw [hpad, ← hcr, List.append_nil, integer_append_fraction m, digitsToNat_displayOf, one_mul]
  -- integer part nonempty, trimmed fraction nonempty: integer.fraction
  · have hInn : integerOf m ≠ [] := fun h => hIe (by rw [h]; rfl)
    obtain ⟨c, rest, hcr⟩ := List.exists_cons_of_ne_nil hInn
    have hbody : formatBody m = integerOf m ++ '.' :: trimTrailingZeros (fractionOf m) := by
      simp [formatBody, hIe, hFe]
    rw [hbody, hcr]
    have hcd : isDigitC c = true := by
      apply hIdig
      rw [hcr]
      exact List.mem_cons_self c rest
    have hstrip := stripNeg_cons_of_ne c (rest ++ '.' :: trimTrailingZeros (fractionOf m))
      (digit_ne_dash c hcd)
    have hIdig' : ∀ x ∈ c :: rest, isDigitC x = true := by
      intro x hx
      apply hIdig
      rw [hcr]
      exact hx
    have hvalid : validBody (c :: (rest ++ '.' :: trimTrailingZeros (fractionOf m))) = true := by
      rw [← List.cons_append]
      exact validBody_append_dot (c :: rest) (trimTrailingZeros (fractionOf m)) hIdig' hFdig
    have hsplit : splitDot (c :: (rest ++ '.' :: trimTrailingZeros (fractionOf m)))
        = (c :: rest, trimTrailingZeros (fractionOf m)) := by
      rw [← List.cons_append]
      exact splitDot_append (c :: rest) (trimTrailingZeros (fractionOf m))
        (fun x hx => digit_ne_dot x (hIdig' x hx))
    rw [List.cons_append]
    simp only [parseUnits18, hstrip, hvalid, Bool.not_true, Bool.false_eq_true, if_false,
      hsplit, hFtrim]
    rw [if_neg (by omega)]
    rw [List.append_assoc, hpad, ← hcr, integer_append_fraction m, digitsToNat_displayOf,
      one_mul]

/-- Parsing inverts formatting on every smallest-unit amount. -/
theorem parseEther_formatEther (n : Nat) :
    parseEther (formatEther (n : Int)) = some (n : Int) := by
  have hneg : decide ((n : Int) < 0) = false := by
    simp
  have habs : ((n : Int)).natAbs = n := Int.natAbs_ofNat n
  show parseUnits18 (formatUnits18 (n : Int)) = some (n : Int)
  unfold formatUnits18
  rw [hneg, if_neg (by simp), habs, List.nil_append]
  exact parseUnits18_formatBody n

/-- Raw receipt log entry: the opaque data and topics fields that
    decodeEventLog consumes in getEventFromReceipt. -/
structure RawLog where
  data : String
  topics : List String
deriving DecidableEq

/-- Decoded event log: the event name and the decoded arguments, the latter
    modelled opaquely as name-value pairs. -/
structure DecodedEvent where
  eventName : String
  args : List (String × String)
deriving DecidableEq

/-- Transaction receipt: inclusion status plus the ordered sequence of log
    entries, the two fields the SDK reads. -/
structure Receipt where
  status : Bool
  logs : List RawLog
deriving DecidableEq

/-- Embedding of getEventFromReceipt (src/sdk/utils.ts): map every log of
    the (possibly absent) receipt through decodeEventLog — a decoder throw
    is caught and becomes none, modelled by the total `decode` parameter,
    which stands for decodeEventLog applied to the fixed candidate abi —
    and return the first decoded entry whose event name equals the requested
    one.  The find over possibly-undefined entries mirrors the optional
    chaining in the source predicate. -/
def getEventFromReceipt (receipt : Option Receipt)
    (decode : RawLog → Option DecodedEvent) (eventName : String) : Option DecodedEvent :=
  match receipt with
  | none => none
  | some r =>
    ((r.logs.map decode).find? (fun o =>
      match o with
      | some e => e.eventName == eventName
      | none => false)).join

/-- Typed argument value passed to writeContract, covering the four abi
    parameter kinds the SDK uses (address, uint256, bool, string). -/
inductive ArgVal
  | addr (a : String)
  | uint (n : Int)
  | bool (b : Bool)
  | str (s : String)
deriving DecidableEq

/-- One writeContract invocation: target contract, function name, ordered
    typed arguments, and the attached native-currency value if payable. -/
structure ContractCall where
  address : String
  functionName : String
  args : List ArgVal
  value : Option Int
deriving DecidableEq

/-- Payload of the metadata POST in list: exactly the fields the source
    passes to JSON.stringify — name, symbol, description, imageURL, the
    lowercased signer address as creator, and the timestamp t.  Structure
    equality models equality of the serialized JSON, since the key set and
    order are fixed and stringification is injective per field. -/
structure SerializedMetadata where
  name : String
  symbol : String
  description : String
  imageURL : String
  creator : String
  t : Nat
deriving DecidableEq

/-- External effect performed by a client operation, in order. -/
inductive Effect
  | getBalance (address : String)
  | postMetadata (payload : SerializedMetadata)
  | writeContract (call : ContractCall)
  | waitForReceipt (hash : Nat)
  | uploadPost (filename : String)
deriving DecidableEq

/-- Token metadata as in KaiaFunSchema.Metadata (src/sdk/client.ts): four
    required fields and three optional social links. -/
structure Metadata where
  name : String
  symbol : String
  description : String
  imageURL : String
  twitter : Option String
  telegram : Option String
  website : Option String
deriving DecidableEq

/-- Options of KaiaFunClient.buy; the minimum-token default is 0 as in the
    source destructuring. -/
structure BuyOptions where
  tokenAddress : String
  amount : Int
  minTokenAmount : Int := 0
deriving DecidableEq

/-- Options of KaiaFunClient.sell; defaults 0 and true as in the source
    destructuring. -/
structure SellOptions where
  tokenAddress : String
  amount : Int
  minBaseAmount : Int := 0
  isOutputKAIA : Bool := true
deriving DecidableEq

/-- Typed failures thrown by the client operations: the two explicit throws
    (Unsupported chain, Insufficient balance) and the rejections propagated
    from the metadata POST and from submission or inclusion wait. -/
inductive KaiaError
  | unsupportedChain
  | insufficientBalance
  | remoteEndpointFailure
  | transactionFailure
deriving DecidableEq

/-- Expected network id of the Kaia mainnet chain descriptor
    (src/sdk/chain.ts, defineChain id 8217). -/
def kaiaMainnetId : Nat := 8217

/-- Modelled from the spec: constants.ts is not among the sources; the
    deployed KaiaFun core contract address is an opaque constant imported
    from it.  No claim depends on its value. -/
def KAIAFUN_CORE_ADDRESS : String := "kaiafun-core-contract-address"

/-- Modelled from the spec: constants.ts is not among the sources; the
    wrapped-native-token address passed as base token to listWithETH is an
    opaque constant imported from it.  No claim depends on its value. -/
def WETH_ADDRESS : String := "wrapped-native-token-address"

/-- Fixed listing fee in smallest units: parseEther of the string 10, that
    is ten units of native currency. -/
def listingFee : Nat := 10 * 10 ^ 18

/-- Environment a client operation runs against: the wallet's chain id
    (absent when no chain is configured), the signer address, the balance
    returned by getBalance, the clock, and the outcomes of the external
    calls (metadata POST, writeContract, receipt wait, log decoding). -/
structure Env where
  chainId : Option Nat
  accountAddress : String
  balance : Nat
  now : Nat
  postMetadataHash : SerializedMetadata → Except Unit String
  write : ContractCall → Except Unit Nat
  wait : Nat → Except Unit Receipt
  decodeTrade : RawLog → Option DecodedEvent
  decodeList : RawLog → Option DecodedEvent

/-- Serialization built inside list: JSON.stringify of name, symbol,
    description, imageURL, the lowercased signer address and Date.now(). -/
def serializeMetadata (m : Metadata) (accountAddress : String) (now : Nat) :
    SerializedMetadata :=
  ⟨m.name, m.symbol, m.description, m.imageURL, lowerString accountAddress, now⟩

/-- Embedding of KaiaFunClient.buy: guard on the wallet chain id, then a
    single payable buyWithETH call carrying the amount as value, wait for
    the receipt, and extract the Trade event.  The returned trace lists the
    external calls in order; a guard failure performs none. -/
def buy (env : Env) (o : BuyOptions) :
    Except KaiaError (Receipt × Option DecodedEvent) × List Effect :=
  if env.chainId ≠ some kaiaMainnetId then (Except.error KaiaError.unsupportedChain, [])
  else
    let call : ContractCall :=
      ⟨KAIAFUN_CORE_ADDRESS, "buyWithETH", [ArgVal.addr o.tokenAddress,
        ArgVal.uint o.minTokenAmount], some o.amount⟩
    match env.write call with
    | Except.error _ => (Except.error KaiaError.transactionFailure, [Effect.writeContract call])
    | Except.ok h =>
      match env.wait h with
      | Except.error _ => (Except.error KaiaError.transactionFailure,
          [Effect.writeContract call, Effect.waitForReceipt h])
      | Except.ok receipt =>
        (Except.ok (receipt, getEventFromReceipt (some receipt) env.decodeTrade "Trade"),
          [Effect.writeContract call, Effect.waitForReceipt h])

/-- Embedding of KaiaFunClient.sell: guard on the wallet chain id, then a
    single non-payable sell call with the four arguments, wait for the
    receipt, and extract the Trade event. -/
def sell (env : Env) (o : SellOptions) :
    Except KaiaError (Receipt × Option DecodedEvent) × List Effect :=
  if env.chainId ≠ some kaiaMainnetId then (Except.error KaiaError.unsupportedChain, [])
  else
    let call : ContractCall :=
      ⟨KAIAFUN_CORE_ADDRESS, "sell", [ArgVal.addr o.tokenAddress, ArgVal.uint o.amount,
        ArgVal.uint o.minBaseAmount, ArgVal.bool o.isOutputKAIA], none⟩
    match env.write call with
    | Except.error _ => (Except.error KaiaError.transactionFailure, [Effect.writeContract call])
    | Except.ok h =>
      match env.wait h with
      | Except.error _ => (Except.error KaiaError.transactionFailure,
          [Effect.writeContract call, Effect.waitForReceipt h])
      | Except.ok receipt =>
        (Except.ok (receipt, getEventFromReceipt (some receipt) env.decodeTrade "Trade"),
          [Effect.writeContract call, Effect.waitForReceipt h])

/-- Embedding of KaiaFunClient.list: guard on the wallet chain id, read the
    signer balance and require at least the fixed fee, serialize the
    metadata and POST it for the metadataHash, then a single payable
    listWithETH call carrying the fee as value, wait for the receipt, and
    extract the List event. -/
def list (env : Env) (m : Metadata) :
    Except KaiaError (Receipt × Option DecodedEvent) × List Effect :=
  if env.chainId ≠ some kaiaMainnetId then (Except.error KaiaError.unsupportedChain, [])
  else
    if env.balance < listingFee then
      (Except.error KaiaError.insufficientBalance, [Effect.getBalance env.accountAddress])
    else
      let payload := serializeMetadata m env.accountAddress env.now
      match env.postMetadataHash payload with
      | Except.error _ => (Except.error KaiaError.remoteEndpointFailure,
          [Effect.getBalance env.accountAddress, Effect.postMetadata payload])
      | Except.ok metadataHash =>
        let call : ContractCall :=
          ⟨KAIAFUN_CORE_ADDRESS, "listWithETH", [ArgVal.addr WETH_ADDRESS,
            ArgVal.str m.name, ArgVal.str m.symbol, ArgVal.str metadataHash],
            some (listingFee : Int)⟩
        match env.write call with
        | Except.error _ => (Except.error KaiaError.transactionFailure,
            [Effect.getBalance env.accountAddress, Effect.postMetadata payload,
              Effect.writeContract call])
        | Except.ok h =>
          match env.wait h with
          | Except.error _ => (Except.error KaiaError.transactionFailure,
              [Effect.getBalance env.accountAddress, Effect.postMetadata payload,
                Effect.writeContract call, Effect.waitForReceipt h])
          | Except.ok receipt =>
            (Except.ok (receipt, getEventFromReceipt (some receipt) env.decodeList "List"),
              [Effect.getBalance env.accountAddress, Effect.postMetadata payload,
                Effect.writeContract call, Effect.waitForReceipt h])

/-- Input file of uploadImage: the name and content type the source reads. -/
structure UploadFile where
  name : String
  type : String
deriving DecidableEq

/-- Body of a successful upload response; the url field is absent when the
    response body is empty or malformed (property access on such a body
    yields undefined, not a throw). -/
structure UploadBody where
  url : Option String
deriving DecidableEq

/-- Embedding of KaiaFunClient.uploadImage: one POST of the file keyed by
    its filename; a rejected request (network failure or non-2xx status,
    which axios turns into a throw) is caught and yields none, and a
    fulfilled request yields the url field of the parsed body.  The `post`
    parameter is the outcome of that single axios call. -/
def uploadImage (file : UploadFile) (post : Except Unit UploadBody) :
    Option String × List Effect :=
  match post with
  | Except.error _ => (none, [Effect.uploadPost file.name])
  | Except.ok body => (body.url, [Effect.uploadPost file.name])

/-- Address well-formedness as the zod schema regex of the server: the
    prefix 0x followed by exactly 40 hexadecimal digits. -/
def isValidAddress (s : String) : Bool :=
  match s.data with
  | '0' :: 'x' :: rest => rest.length == 40 && rest.all isHexDigitC
  | _ => false

/-- Fixed base of the KaiaFun token detail page URL in the get_token_url
    handler. -/
def TOKEN_URL_BASE : String := "https://kaiafun.io/token/"

/-- Embedding of the get_token_url tool handler: validate the address
    against the zod schema, then build the detail URL from the fixed base
    and the lowercased address.  The handler performs no client or network
    call, so its effect trace is always empty; the handler wraps the URL in
    a text block, which is omitted here. -/
def get_token_url (tokenAddress : String) : Option String × List Effect :=
  if isValidAddress tokenAddress then
    (some (TOKEN_URL_BASE ++ lowerString tokenAddress), [])
  else (none, [])

theorem getEventFromReceipt_none_of_no_match (d : RawLog → Option DecodedEvent) (n : String)
    (r : Receipt) (h : ∀ l ∈ r.logs, ∀ e, d l = some e → e.eventName ≠ n) :
    getEventFromReceipt (some r) d n = none := by
  simp only [getEventFromReceipt]
  have hfind : (r.logs.map d).find? (fun o =>
      match o with
      | some e => e.eventName == n
      | none => false) = none := by
    apply List.find?_eq_none.mpr
    intro x hx
    obtain ⟨l, hl, rfl⟩ := List.mem_map.mp hx
    cases hd : d l with
    | none => simp
    | some e =>
      have hne := h l hl e hd
      simp [hne]
  rw [hfind]
  rfl

/-- C3: event extraction decodes each log of the receipt in order against
    the candidate shapes (a failing decode is skipped, not an error) and
    returns the first decoded entry whose name equals the target; the result
    is none for an absent receipt, an empty log list, no decodable log, or
    decodable logs of other names only, and with several decodable logs the
    first matching one in original order wins. -/
theorem getEventFromReceipt_first_match (d : RawLog → Option DecodedEvent) (n : String) :
    getEventFromReceipt none d n = none
    ∧ (∀ st : Bool, getEventFromReceipt (some ⟨st, []⟩) d n = none)
    ∧ (∀ r : Receipt, (∀ l ∈ r.logs, d l = none) →
        getEventFromReceipt (some r) d n = none)
    ∧ (∀ r : Receipt, (∀ l ∈ r.logs, ∀ e, d l = some e → e.eventName ≠ n) →
        getEventFromReceipt (some r) d n = none)
    ∧ (∀ (st : Bool) (pre post : List RawLog) (l : RawLog) (e : DecodedEvent),
        (∀ l2 ∈ pre, ∀ e2, d l2 = some e2 → e2.eventName ≠ n) →
        d l = some e → e.eventName = n →
        getEventFromReceipt (some ⟨st, pre ++ l :: post⟩) d n = some e) := by
  refine ⟨rfl, fun st => rfl, ?_, ?_, ?_⟩
  · intro r h
    apply getEventFromReceipt_none_of_no_match
    intro l hl e hd
    rw [h l hl] at hd
    cases hd
  · intro r h
    exact getEventFromReceipt_none_of_no_match d n r h
  · intro st pre post l e hpre hdl hname
    simp only [getEventFromReceipt]
    have h1 : (pre.map d).find? (fun o =>
        match o with
        | some e2 => e2.eventName == n
        | none => false) = none := by
      apply List.find?_eq_none.mpr
      intro x hx
      obtain ⟨l2, hl2, rfl⟩ := List.mem_map.mp hx
      cases hd2 : d l2 with
      | none => simp
      | some e2 =>
        have hne := hpre l2 hl2 e2 hd2
        simp [hne]
    have h2 : ((pre ++ l :: post).map d).find? (fun o =>
        match o with
        | some e2 => e2.eventName == n
        | none => false) = some (some e) := by
      rw [List.map_append, List.find?_append, h1, List.map_cons,
        List.find?_cons_of_pos]
      · rw [hdl]
        rfl
      · rw [hdl]
        simp [hname]
    rw [h2]
    rfl

/-- C8: event extraction is deterministic and depends on nothing but the
    receipt's log sequence (order and content), the candidate shapes, and
    the target name: two receipts with equal logs give equal results even
    when their other fields differ. -/
theorem getEventFromReceipt_deterministic (r1 r2 : Receipt)
    (d : RawLog → Option DecodedEvent) (n : String) (h : r1.logs = r2.logs) :
    getEventFromReceipt (some r1) d n = getEventFromReceipt (some r2) d n := by
  simp only [getEventFromReceipt]
  rw [h]

/-- Sample decoder for witnesses: decodeEventLog over a two-shape candidate
    set, decoding data t to a Trade event and data o to an Other event. -/
def witDecode : RawLog → Option DecodedEvent := fun l =>
  if l.data = "t" then some ⟨"Trade", []⟩
  else if l.data = "o" then some ⟨"Other", []⟩
  else none

/-- Witness for C3: a receipt whose logs are an Other-decoding log, an
    undecodable log, and two Trade-decoding logs yields the first Trade
    entry; the none cases are exercised on concrete receipts as well. -/
theorem getEventFromReceipt_first_match_witness :
    getEventFromReceipt
        (some ⟨true, [⟨"o", []⟩, ⟨"x", []⟩, ⟨"t", []⟩, ⟨"t", ["second"]⟩]⟩)
        witDecode "Trade" = some ⟨"Trade", []⟩
    ∧ getEventFromReceipt none witDecode "Trade" = none
    ∧ getEventFromReceipt (some ⟨true, []⟩) witDecode "Trade" = none
    ∧ getEventFromReceipt (some ⟨true, [⟨"x", []⟩]⟩) witDecode "Trade" = none
    ∧ getEventFromReceipt (some ⟨true, [⟨"o", []⟩]⟩) witDecode "Trade" = none := by
  have h := getEventFromReceipt_first_match witDecode "Trade"
  refine ⟨?_, h.1, h.2.1 true, ?_, ?_⟩
  · have h5 := h.2.2.2.2 true [⟨"o", []⟩, ⟨"x", []⟩] [⟨"t", ["second"]⟩] ⟨"t", []⟩
      ⟨"Trade", []⟩ ?_ rfl rfl
    · exact h5
    · intro l2 hl2 e2 hd2
      rcases List.mem_cons.mp hl2 with rfl | hl2
      · rw [show witDecode ⟨"o", []⟩ = some ⟨"Other", []⟩ from rfl] at hd2
        cases hd2
        decide
      · rcases List.mem_cons.mp hl2 with rfl | hl2
        · rw [show witDecode ⟨"x", []⟩ = none from rfl] at hd2
          cases hd2
        · cases hl2
  · apply h.2.2.1
    intro l hl
    rcases List.mem_cons.mp hl with rfl | hl
    · rfl
    · cases hl
  · apply h.2.2.2.1
    intro l hl e hd
    rcases List.mem_cons.mp hl with rfl | hl
    · rw [show witDecode ⟨"o", []⟩ = some ⟨"Other", []⟩ from rfl] at hd
      cases hd
      decide
    · cases hl

/-- Witness for C8: two receipts differing only in status give the same
    extraction result. -/
theorem getEventFromReceipt_deterministic_witness :
    (⟨true, [⟨"t", []⟩]⟩ : Receipt).logs = (⟨false, [⟨"t", []⟩]⟩ : Receipt).logs
    ∧ getEventFromReceipt (some ⟨true, [⟨"t", []⟩]⟩) witDecode "Trade"
      = getEventFromReceipt (some ⟨false, [⟨"t", []⟩]⟩) witDecode "Trade" :=
  ⟨rfl, getEventFromReceipt_deterministic ⟨true, [⟨"t", []⟩]⟩ ⟨false, [⟨"t", []⟩]⟩
    witDecode "Trade" rfl⟩

/-- C1: on every chain connection whose chain id differs from the expected
    Kaia network id 8217, each mutating operation — buy, sell, and list —
    fails with the UnsupportedChain error and performs no external call at
    all, in particular no writeContract submission. -/
theorem chain_mismatch_blocks_mutations (env : Env) (o : BuyOptions) (s : SellOptions)
    (m : Metadata) (c : Nat) (hc : env.chainId = some c) (hne : c ≠ kaiaMainnetId) :
    buy env o = (Except.error KaiaError.unsupportedChain, [])
    ∧ sell env s = (Except.error KaiaError.unsupportedChain, [])
    ∧ list env m = (Except.error KaiaError.unsupportedChain, []) := by
  have hg : env.chainId ≠ some kaiaMainnetId := by
    rw [hc]
    intro h
    rw [Option.some.injEq] at h
    exact hne h
  exact ⟨by simp [buy, hg], by simp [sell, hg], by simp [list, hg]⟩

/-- Environment for witnesses: a wallet bound to chain id 1 instead of the
    Kaia mainnet. -/
def witEnvWrongChain : Env :=
  ⟨some 1, "0xAbC", 0, 5, fun _ => Except.ok "mh", fun _ => Except.ok 1,
    fun _ => Except.ok ⟨true, []⟩, fun _ => none, fun _ => none⟩

/-- Sample metadata for witnesses. -/
def mFoo : Metadata := ⟨"Foo", "FOO", "d", "https://x/y.png", none, none, none⟩

/-- Witness for C1 at the concrete chain id 1. -/
theorem chain_mismatch_blocks_mutations_witness :
    buy witEnvWrongChain ⟨"0xT", 5, 0⟩ = (Except.error KaiaError.unsupportedChain, [])
    ∧ sell witEnvWrongChain ⟨"0xT", 5, 0, true⟩
      = (Except.error KaiaError.unsupportedChain, [])
    ∧ list witEnvWrongChain mFoo = (Except.error KaiaError.unsupportedChain, []) :=
  chain_mismatch_blocks_mutations witEnvWrongChain ⟨"0xT", 5, 0⟩ ⟨"0xT", 5, 0, true⟩
    mFoo 1 rfl (by decide)

/-- C9: when the wallet client has no chain configured at all, the guard of
    every mutating operation treats the absent chain exactly like a
    mismatched one: buy, sell, and list fail with the UnsupportedChain error
    before any external call. -/
theorem chain_absent_blocks_mutations (env : Env) (o : BuyOptions) (s : SellOptions)
    (m : Metadata) (hc : env.chainId = none) :
    buy env o = (Except.error KaiaError.unsupportedChain, [])
    ∧ sell env s = (Except.error KaiaError.unsupportedChain, [])
    ∧ list env m = (Except.error KaiaError.unsupportedChain, []) := by
  have hg : env.chainId ≠ some kaiaMainnetId := by
    rw [hc]
    exact fun h => Option.noConfusion h
  exact ⟨by simp [buy, hg], by simp [sell, hg], by simp [list, hg]⟩

/-- Environment for witnesses: a wallet with no chain configured. -/
def witEnvNoChain : Env :=
  ⟨none, "0xAbC", 0, 5, fun _ => Except.ok "mh", fun _ => Except.ok 1,
    fun _ => Except.ok ⟨true, []⟩, fun _ => none, fun _ => none⟩

/-- Witness for C9 with an absent chain. -/
theorem chain_absent_blocks_mutations_witness :
    buy witEnvNoChain ⟨"0xT", 5, 0⟩ = (Except.error KaiaError.unsupportedChain, [])
    ∧ sell witEnvNoChain ⟨"0xT", 5, 0, true⟩
      = (Except.error KaiaError.unsupportedChain, [])
    ∧ list witEnvNoChain mFoo = (Except.error KaiaError.unsupportedChain, []) :=
  chain_absent_blocks_mutations witEnvNoChain ⟨"0xT", 5, 0⟩ ⟨"0xT", 5, 0, true⟩ mFoo rfl

/-- C2: on a correctly bound chain, every listing attempt whose signer
    balance is strictly below the fixed fee of 10 native units fails with
    InsufficientBalance after the single balance read: no metadata POST and
    no transaction submission appear in the trace. -/
theorem insufficient_balance_blocks_list (env : Env) (m : Metadata)
    (hc : env.chainId = some kaiaMainnetId) (hb : env.balance < listingFee) :
    list env m
      = (Except.error KaiaError.insufficientBalance,
          [Effect.getBalance env.accountAddress]) := by
  have hg : ¬ env.chainId ≠ some kaiaMainnetId := by
    rw [hc]
    exact fun h => h rfl
  simp [list, hg, hb]

/-- Environment for witnesses: correct chain, balance of exactly the fee
    minus one smallest unit. -/
def witEnvPoor : Env :=
  ⟨some 8217, "0xAbC", 10 * 10 ^ 18 - 1, 5, fun _ => Except.ok "mh",
    fun _ => Except.ok 1, fun _ => Except.ok ⟨true, []⟩, fun _ => none, fun _ => none⟩

/-- Witness for C2 at balance fee minus one. -/
theorem insufficient_balance_blocks_list_witness :
    list witEnvPoor mFoo
      = (Except.error KaiaError.insufficientBalance, [Effect.getBalance "0xAbC"]) :=
  insufficient_balance_blocks_list witEnvPoor mFoo rfl (by decide)

/-- Environment for witnesses: correct chain, sufficient balance, all
    external calls succeeding, logs decoding to nothing. -/
def witEnvRich : Env :=
  ⟨some 8217, "0xAbC", 10 * 10 ^ 18, 7, fun _ => Except.ok "mh",
    fun _ => Except.ok 1, fun _ => Except.ok ⟨true, []⟩, fun _ => none, fun _ => none⟩

/-- C4 counterexample: two metadata values differing only in a present
    versus absent twitter link serialize identically, and the whole list
    operation behaves identically on them — so the optional social links
    are not part of the posted serialization. -/
theorem list_ignores_social_links :
    (⟨"Foo", "FOO", "d", "https://x/y.png", some "kaiafun", none, none⟩ : Metadata)
      ≠ ⟨"Foo", "FOO", "d", "https://x/y.png", none, none, none⟩
    ∧ serializeMetadata
        ⟨"Foo", "FOO", "d", "https://x/y.png", some "kaiafun", none, none⟩ "0xA" 7
      = serializeMetadata
        ⟨"Foo", "FOO", "d", "https://x/y.png", none, none, none⟩ "0xA" 7
    ∧ list witEnvRich ⟨"Foo", "FOO", "d", "https://x/y.png", some "kaiafun", none, none⟩
      = list witEnvRich ⟨"Foo", "FOO", "d", "https://x/y.png", none, none, none⟩ :=
  ⟨by decide, rfl, rfl⟩

/-- C4 amended: list serializes the core metadata fields — name, symbol,
    description, image URL — together with the lowercased signer address and
    a timestamp (omitting the optional social links), posts that
    serialization to the metadata endpoint, and a failure of this POST
    aborts the operation with RemoteEndpointFailure before any transaction
    is submitted. -/
theorem list_posts_core_serialization (env : Env) (m : Metadata)
    (hc : env.chainId = some kaiaMainnetId) (hb : ¬ env.balance < listingFee) :
    Effect.postMetadata ⟨m.name, m.symbol, m.description, m.imageURL,
        lowerString env.accountAddress, env.now⟩ ∈ (list env m).2
    ∧ (∀ u : Unit, env.postMetadataHash (serializeMetadata m env.accountAddress env.now)
          = Except.error u →
        (list env m).1 = Except.error KaiaError.remoteEndpointFailure
        ∧ ∀ call, Effect.writeContract call ∉ (list env m).2) := by
  have hg : ¬ env.chainId ≠ some kaiaMainnetId := by
    rw [hc]
    exact fun h => h rfl
  constructor
  · simp only [list, if_neg hg, if_neg hb]
    cases hpost : env.postMetadataHash (serializeMetadata m env.accountAddress env.now) with
    | error u => simp [serializeMetadata]
    | ok hsh =>
      cases hw : env.write ⟨KAIAFUN_CORE_ADDRESS, "listWithETH", [ArgVal.addr WETH_ADDRESS,
          ArgVal.str m.name, ArgVal.str m.symbol, ArgVal.str hsh],
          some (listingFee : Int)⟩ with
      | error u => simp [serializeMetadata, hw]
      | ok h =>
        cases hwt : env.wait h with
        | error u => simp [serializeMetadata, hw, hwt]
        | ok receipt => simp [serializeMetadata, hw, hwt]
  · intro u hpost
    simp only [list, if_neg hg, if_neg hb, hpost]
    refine ⟨by simp, fun call => by simp⟩

/-- Environment for witnesses: correct chain and balance but a failing
    metadata POST. -/
def witEnvPostFail : Env :=
  ⟨some 8217, "0xAbC", 10 * 10 ^ 18, 7, fun _ => Except.error (),
    fun _ => Except.ok 1, fun _ => Except.ok ⟨true, []⟩, fun _ => none, fun _ => none⟩

/-- Witness for the amended C4: the serialized core fields are posted, and
    the failing POST aborts before any submission. -/
theorem list_posts_core_serialization_witness :
    Effect.postMetadata ⟨"Foo", "FOO", "d", "https://x/y.png",
        lowerString "0xAbC", 7⟩ ∈ (list witEnvPostFail mFoo).2
    ∧ (list witEnvPostFail mFoo).1 = Except.error KaiaError.remoteEndpointFailure
    ∧ ∀ call, Effect.writeContract call ∉ (list witEnvPostFail mFoo).2 := by
  have h := list_posts_core_serialization witEnvPostFail mFoo rfl (by decide)
  exact ⟨h.1, (h.2 () rfl).1, (h.2 () rfl).2⟩

/-- C6 counterexample: a buy invocation with amount 0 and a malformed token
    address, on the correct chain, is not rejected by any defensive check —
    it submits the transaction as-is and returns a success result. -/
theorem buy_accepts_nonpositive_amount :
    (buy witEnvRich ⟨"not-an-address", 0, 0⟩).1 = Except.ok (⟨true, []⟩, none)
    ∧ Effect.writeContract ⟨KAIAFUN_CORE_ADDRESS, "buyWithETH",
        [ArgVal.addr "not-an-address", ArgVal.uint 0], some 0⟩
      ∈ (buy witEnvRich ⟨"not-an-address", 0, 0⟩).2 := by
  exact ⟨rfl, by decide⟩

/-- C6 amended: the core client performs no defensive re-check of amount
    positivity or address well-formedness: once the chain-id guard passes, a
    buy or sell with any token address string and a non-positive amount is
    still submitted via writeContract, with the given address and amount in
    the call. -/
theorem buy_sell_submit_without_domain_checks (env : Env) (o : BuyOptions)
    (s : SellOptions) (hc : env.chainId = some kaiaMainnetId)
    (ho : o.amount ≤ 0) (hs : s.amount ≤ 0) :
    (∃ call, Effect.writeContract call ∈ (buy env o).2
      ∧ call.value = some o.amount
      ∧ call.args = [ArgVal.addr o.tokenAddress, ArgVal.uint o.minTokenAmount])
    ∧ (∃ call, Effect.writeContract call ∈ (sell env s).2
      ∧ call.args = [ArgVal.addr s.tokenAddress, ArgVal.uint s.amount,
          ArgVal.uint s.minBaseAmount, ArgVal.bool s.isOutputKAIA]) := by
  have hg : ¬ env.chainId ≠ some kaiaMainnetId := by
    rw [hc]
    exact fun h => h rfl
  constructor
  · refine ⟨⟨KAIAFUN_CORE_ADDRESS, "buyWithETH",
      [ArgVal.addr o.tokenAddress, ArgVal.uint o.minTokenAmount], some o.amount⟩,
      ?_, rfl, rfl⟩
    simp only [buy, if_neg hg]
    cases hw : env.write ⟨KAIAFUN_CORE_ADDRESS, "buyWithETH",
        [ArgVal.addr o.tokenAddress, ArgVal.uint o.minTokenAmount], some o.amount⟩ with
    | error u => simp
    | ok h =>
      cases hwt : env.wait h with
      | error u => simp [hwt]
      | ok receipt => simp [hwt]
  · refine ⟨⟨KAIAFUN_CORE_ADDRESS, "sell", [ArgVal.addr s.tokenAddress,
      ArgVal.uint s.amount, ArgVal.uint s.minBaseAmount,
      ArgVal.bool s.isOutputKAIA], none⟩, ?_, rfl⟩
    simp only [sell, if_neg hg]
    cases hw : env.write ⟨KAIAFUN_CORE_ADDRESS, "sell", [ArgVal.addr s.tokenAddress,
        ArgVal.uint s.amount, ArgVal.uint s.minBaseAmount,
        ArgVal.bool s.isOutputKAIA], none⟩ with
    | error u => simp
    | ok h =>
      cases hwt : env.wait h with
      | error u => simp [hwt]
      | ok receipt => simp [hwt]

/-- Witness for the amended C6: zero buy amount and negative sell amount are
    both submitted. -/
theorem buy_sell_submit_without_domain_checks_witness :
    (∃ call, Effect.writeContract call ∈ (buy witEnvRich ⟨"not-an-address", 0, 0⟩).2
      ∧ call.value = some 0
      ∧ call.args = [ArgVal.addr "not-an-address", ArgVal.uint 0])
    ∧ (∃ call, Effect.writeContract call ∈ (sell witEnvRich ⟨"0xT", -1, 0, true⟩).2
      ∧ call.args = [ArgVal.addr "0xT", ArgVal.uint (-1), ArgVal.uint 0,
          ArgVal.bool true]) :=
  buy_sell_submit_without_domain_checks witEnvRich ⟨"not-an-address", 0, 0⟩
    ⟨"0xT", -1, 0, true⟩ rfl (by decide) (by decide)

/-- C7: uploadImage never propagates a failure as a throw: its one POST is
    always attempted exactly once and never retried, any rejected request
    (network failure or non-2xx status) yields none, and a fulfilled
    request yields exactly the url field the server assigned — none when
    the response body is empty or malformed. -/
theorem uploadImage_never_throws (file : UploadFile) (post : Except Unit UploadBody) :
    (uploadImage file post).2 = [Effect.uploadPost file.name]
    ∧ (∀ u : Unit, post = Except.error u → (uploadImage file post).1 = none)
    ∧ (∀ b : UploadBody, post = Except.ok b → (uploadImage file post).1 = b.url) := by
  cases post with
  | error u =>
    refine ⟨rfl, fun _ _ => rfl, ?_⟩
    intro b hb
    cases hb
  | ok body =>
    refine ⟨rfl, ?_, fun b hb => by cases hb; rfl⟩
    intro u hu
    cases hu

/-- Witness for C7: a rejected POST yields none, a body with a url yields
    exactly that url, a malformed body yields none, and the trace is the
    single POST. -/
theorem uploadImage_never_throws_witness :
    (uploadImage ⟨"a.png", "image/png"⟩ (Except.error ())).1 = none
    ∧ (uploadImage ⟨"a.png", "image/png"⟩
        (Except.ok ⟨some "https://cdn/u.png"⟩)).1 = some "https://cdn/u.png"
    ∧ (uploadImage ⟨"a.png", "image/png"⟩ (Except.ok ⟨none⟩)).1 = none
    ∧ (uploadImage ⟨"a.png", "image/png"⟩ (Except.error ())).2
      = [Effect.uploadPost "a.png"] := by
  have h1 := uploadImage_never_throws ⟨"a.png", "image/png"⟩ (Except.error ())
  have h2 := uploadImage_never_throws ⟨"a.png", "image/png"⟩
    (Except.ok ⟨some "https://cdn/u.png"⟩)
  have h3 := uploadImage_never_throws ⟨"a.png", "image/png"⟩ (Except.ok ⟨none⟩)
  exact ⟨h1.2.1 () rfl, h2.2.2 ⟨some "https://cdn/u.png"⟩ rfl, h3.2.2 ⟨none⟩ rfl, h1.1⟩

/-- C10: for every well-formed token address the get_token_url handler
    performs no network call (its effect trace is empty) and returns the
    fixed base concatenated with the lowercased address; no character of the
    lowercased address is an ASCII uppercase letter, whatever the case of
    the input. -/
theorem get_token_url_lowercases (tokenAddress : String)
    (h : isValidAddress tokenAddress = true) :
    get_token_url tokenAddress = (some (TOKEN_URL_BASE ++ lowerString tokenAddress), [])
    ∧ ∀ c ∈ (lowerString tokenAddress).data, isUpperC c = false := by
  constructor
  · simp [get_token_url, h]
  · intro c hc
    have hc2 : c ∈ tokenAddress.data.map toLowerChar := hc
    obtain ⟨c0, _, rfl⟩ := List.mem_map.mp hc2
    exact isUpperC_toLowerChar c0

/-- Witness for C10 at a mixed-case well-formed address. -/
theorem get_token_url_lowercases_witness :
    isValidAddress "0xAbCdEf0123456789aBcDeF0123456789AbCdEf01" = true
    ∧ (get_token_url "0xAbCdEf0123456789aBcDeF0123456789AbCdEf01"
        = (some (TOKEN_URL_BASE
            ++ lowerString "0xAbCdEf0123456789aBcDeF0123456789AbCdEf01"), [])
      ∧ ∀ c ∈ (lowerString "0xAbCdEf0123456789aBcDeF0123456789AbCdEf01").data,
          isUpperC c = false) :=
  ⟨by decide, get_token_url_lowercases "0xAbCdEf0123456789aBcDeF0123456789AbCdEf01"
    (by decide)⟩

/-- C5 counterexample: the string 1.50 is a non-negative decimal string
    within 18 decimal places, yet the round trip through parse and format
    returns its canonical form 1.5, not the original string, so the
    composition is not the identity on all such strings. -/
theorem roundtrip_changes_noncanonical :
    parseEther "1.50" = some 1500000000000000000
    ∧ Option.map formatEther (parseEther "1.50") = some "1.5"
    ∧ ("1.5" : String) ≠ "1.50" :=
  ⟨by decide, by decide, by decide⟩

/-- C5 amended: converting a smallest-unit amount to its display string and
    parsing it back is the identity, so format-after-parse is the identity
    exactly on canonically formatted decimal strings (the image of
    format_ether); on other representable strings the round trip returns the
    canonical rendering of the same value. -/
theorem format_parse_roundtrip (n : Nat) :
    parseEther (formatEther (n : Int)) = some (n : Int)
    ∧ Option.map formatEther (parseEther (formatEther (n : Int)))
      = some (formatEther (n : Int)) := by
  have h := parseEther_formatEther n
  exact ⟨h, by rw [h]; rfl⟩

/- Concrete evaluations pinning the conversion embedding to viem's observed
   behaviour on sample inputs. -/
example : parseEther "1.5" = some 1500000000000000000 := by decide
example : parseEther "1.50" = some 1500000000000000000 := by decide
example : parseEther "10" = some 10000000000000000000 := by decide
example : parseEther "0" = some 0 := by decide
example : parseEther "" = some 0 := by decide
example : parseEther "." = some 0 := by decide
example : parseEther "-1.5" = some (-1500000000000000000) := by decide
example : parseEther "1.2.3" = none := by decide
example : parseEther "a" = none := by decide
example : formatEther 1500000000000000000 = "1.5" := by decide
example : formatEther 0 = "0" := by decide
example : formatEther 1 = "0.000000000000000001" := by decide
example : formatEther (-1500000000000000000) = "-1.5" := by decide
example : formatEther 25000000000000000000 = "25" := by decide

/-- Sanity link between the embedded conversion and the client's fixed fee:
    parseEther of the string 10 is exactly the listing fee. -/
theorem parseEther_ten_eq_listingFee : parseEther "10" = some (listingFee : Int) := by
  decide
